import Mathlib

/-!
Verification of the structural facts extracted by the code-architecture
analyzer (main.py) and the class-documentation generator (mainOOP.py).

The Python sources are shallowly embedded: the fragment of the Python AST
that the two scripts inspect is an inductive family, `ast.walk` is a list
of subtree nodes, Python dicts are association lists whose insertion
semantics (overwrite in place, insertion order preserved) are modelled by
`dictInsert`, and `collections.defaultdict(list)` by `ddAppend`.
-/

/-- Python dict assignment `m[k] = v`: if the key is present the value is
replaced in place (iteration order keeps the original position of the key),
otherwise the pair is appended at the end. -/
def dictInsert {α : Type} (m : List (String × α)) (k : String) (v : α) :
    List (String × α) :=
  if m.any (fun p => p.1 == k) then
    m.map (fun p => if p.1 == k then (k, v) else p)
  else
    m ++ [(k, v)]

/-- Python dict lookup `m.get(k)`. -/
def dictGet? {α : Type} (m : List (String × α)) (k : String) : Option α :=
  (m.find? (fun p => p.1 == k)).map (fun p => p.2)

/-- Python `defaultdict(list)` update `m[k].append(v)`. -/
def ddAppend {α : Type} (m : List (String × List α)) (k : String) (v : α) :
    List (String × List α) :=
  if m.any (fun p => p.1 == k) then
    m.map (fun p => if p.1 == k then (p.1, p.2 ++ [v]) else p)
  else
    m ++ [(k, [v])]

/-- Lookup in a `defaultdict(list)`: a missing key reads as the empty list. -/
def ddLookup {α : Type} (m : List (String × List α)) (k : String) : List α :=
  (dictGet? m k).getD []

/-- The value recorded for a key by the most recent pair of an event list,
i.e. last-write-wins reading of a sequence of insertions. -/
def lastWith {α : Type} (l : List (String × α)) (k : String) : Option α :=
  (l.reverse.find? (fun p => p.1 == k)).map (fun p => p.2)

theorem dictGet?_insert {α : Type} (m : List (String × α)) (k n : String)
    (v : α) :
    dictGet? (dictInsert m k v) n =
      if n = k then some v else dictGet? m n := by
  unfold dictInsert dictGet?
  by_cases hany : m.any (fun p => p.1 == k) = true
  · rw [if_pos hany, List.find?_map]
    have hcomp :
        ((fun p : String × α => p.1 == n) ∘
          (fun p => if p.1 == k then (k, v) else p)) =
        (fun p : String × α => p.1 == n) := by
      funext p
      by_cases hk : p.1 = k
      · simp [hk]
      · simp [hk]
    rw [hcomp]
    cases hf : m.find? (fun p => p.1 == n) with
    | none =>
      by_cases hnk : n = k
      · exfalso
        subst hnk
        rw [List.find?_eq_none] at hf
        simp only [List.any_eq_true] at hany
        obtain ⟨p, hp, hpk⟩ := hany
        exact absurd hpk (by simpa using hf p hp)
      · simp [hnk]
    | some q =>
      have hq1 : q.1 = n := by simpa using List.find?_some hf
      by_cases hnk : n = k
      · subst hnk
        simp [hq1]
      · have hqk : ¬ q.1 = k := by rw [hq1]; exact hnk
        simp [hqk, hnk]
  · rw [if_neg hany, List.find?_append]
    by_cases hnk : n = k
    · subst hnk
      have hfind : m.find? (fun p => p.1 == n) = none := by
        rw [List.find?_eq_none]
        intro p hp
        simp only [List.any_eq_true] at hany
        push_neg at hany
        exact hany p hp
      simp [hfind]
    · have h2 : (k == n) = false := by
        simp [BEq.beq]
        exact fun h => hnk h.symm
      cases hf : m.find? (fun p => p.1 == n) with
      | none => simp [h2, hnk]
      | some q => simp [hnk]

theorem lastWith_cons {α : Type} (p : String × α) (l : List (String × α))
    (k : String) :
    lastWith (p :: l) k =
      match lastWith l k with
      | some v => some v
      | none => if p.1 = k then some p.2 else none := by
  unfold lastWith
  rw [List.reverse_cons, List.find?_append]
  cases hf : l.reverse.find? (fun q => q.1 == k) with
  | some q => simp [hf]
  | none =>
    by_cases hk : p.1 = k
    · simp [hf, hk]
    · have h2 : (p.1 == k) = false := by simp [hk]
      simp [hf, h2, hk]

theorem dictGet?_foldl_insert {α : Type} (l : List (String × α))
    (m : List (String × α)) (n : String) :
    dictGet? (l.foldl (fun m p => dictInsert m p.1 p.2) m) n =
      match lastWith l n with
      | some v => some v
      | none => dictGet? m n := by
  induction l generalizing m with
  | nil => simp [lastWith]
  | cons p rest ih =>
    simp only [List.foldl_cons]
    rw [ih, lastWith_cons]
    cases hr : lastWith rest n with
    | some v => simp
    | none =>
      simp only
      rw [dictGet?_insert]
      by_cases hk : n = p.1
      · simp [hk]
      · have : ¬ p.1 = n := fun h => hk h.symm
        simp [hk, this]

theorem lastWith_eq_none {α : Type} (l : List (String × α)) (n : String)
    (h : ∀ p ∈ l, p.1 ≠ n) : lastWith l n = none := by
  unfold lastWith
  have : l.reverse.find? (fun p => p.1 == n) = none := by
    rw [List.find?_eq_none]
    intro p hp
    have := h p (List.mem_reverse.mp hp)
    simp [this]
  simp [this]

theorem lastWith_mem {α : Type} (l : List (String × α)) (n : String) (v : α)
    (h : lastWith l n = some v) : (n, v) ∈ l := by
  unfold lastWith at h
  cases hf : l.reverse.find? (fun p => p.1 == n) with
  | none => simp [hf] at h
  | some q =>
    simp only [hf, Option.map_some] at h
    have hq : q ∈ l.reverse := List.mem_of_find?_eq_some hf
    have hpred := List.find?_some hf
    have hq1 : q.1 = n := by simpa using hpred
    have : q = (n, v) := by
      cases q with
      | mk a b => simp at hq1 h; simp [hq1, h]
    rw [← this]
    exact List.mem_reverse.mp hq

theorem ddLookup_append {α : Type} (m : List (String × List α)) (k n : String)
    (v : α) :
    ddLookup (ddAppend m k v) n =
      if n = k then ddLookup m k ++ [v] else ddLookup m n := by
  unfold ddAppend ddLookup dictGet?
  by_cases hany : m.any (fun p => p.1 == k) = true
  · simp only [hany, if_true]
    rw [List.find?_map]
    have hcomp :
        ((fun p : String × List α => p.1 == n) ∘
          (fun p => if p.1 == k then (p.1, p.2 ++ [v]) else p)) =
        (fun p : String × List α => p.1 == n) := by
      funext p
      by_cases hk : p.1 = k
      · simp [hk]
      · simp [hk]
    rw [hcomp]
    cases hf : m.find? (fun p => p.1 == n) with
    | none =>
      by_cases hnk : n = k
      · exfalso
        subst hnk
        rw [List.find?_eq_none] at hf
        simp only [List.any_eq_true] at hany
        obtain ⟨p, hp, hpk⟩ := hany
        exact absurd hpk (by simpa using hf p hp)
      · simp [hnk]
    | some q =>
      have hq1 : q.1 = n := by simpa using List.find?_some hf
      by_cases hnk : n = k
      · subst hnk
        simp [hf, hq1]
      · have hqk : ¬ q.1 = k := by rw [hq1]; exact hnk
        simp [hqk, hnk]
  · rw [if_neg hany, List.find?_append]
    by_cases hnk : n = k
    · subst hnk
      have hfind : m.find? (fun p => p.1 == n) = none := by
        rw [List.find?_eq_none]
        intro p hp
        simp only [List.any_eq_true] at hany
        push_neg at hany
        exact hany p hp
      simp [hfind]
    · have h2 : (k == n) = false := by
        simp [BEq.beq]
        exact fun h => hnk h.symm
      cases hf : m.find? (fun p => p.1 == n) with
      | none => simp [h2, hnk]
      | some q => simp [hnk]

/-!
The fragment of the Python abstract syntax that main.py and mainOOP.py
inspect, as a mutual inductive family.  Argument lists are modelled as
plain parameter names (`arg.arg`); this restricts the embedded fragment to
functions without expression-bearing argument annotations or defaults,
which the two scripts never look at inside `args` anyway.
-/

/-- The boolean operator node stored in the `op` field of a `BoolOp` node
(`ast.And` / `ast.Or`); `ast.walk` yields it as a node of its own. -/
inductive BoolOpKind where
  | andB
  | orB
deriving Repr, DecidableEq

mutual
inductive Expr where
  | name (id : String)
  | attributeE (value : Expr) (attr : String)
  | call (func : Expr) (args : List Expr)
  | boolOp (op : BoolOpKind) (values : List Expr)
  | constant
  | subscript (value : Expr) (slice : Expr)
  | tupleE (elts : List Expr)
deriving Repr

inductive Stmt where
  | functionDef (name : String) (args : List String) (decorator_list : List Expr)
      (returns : Option Expr) (body : List Stmt) (lineno : Nat)
  | asyncFunctionDef (name : String) (args : List String) (decorator_list : List Expr)
      (returns : Option Expr) (body : List Stmt) (lineno : Nat)
  | classDef (name : String) (bases : List Expr) (decorator_list : List Expr)
      (body : List Stmt) (lineno : Nat)
  | ifS (test : Expr) (body : List Stmt) (orelse : List Stmt)
  | whileS (test : Expr) (body : List Stmt) (orelse : List Stmt)
  | forS (target : Expr) (iter : Expr) (body : List Stmt) (orelse : List Stmt)
  | asyncForS (target : Expr) (iter : Expr) (body : List Stmt) (orelse : List Stmt)
  | tryS (body : List Stmt) (handlers : List Handler) (orelse : List Stmt)
      (finalbody : List Stmt)
  | assign (targets : List Expr) (value : Expr)
  | importS (names : List String)
  | importFromS (module : Option String) (names : List String)
  | exprStmt (value : Expr)
  | returnS (value : Option Expr)
  | passS
deriving Repr

/-- An `ast.ExceptHandler` clause of a `Try` statement. -/
inductive Handler where
  | handler (type : Option Expr) (body : List Stmt)
deriving Repr
end

/-- A uniform view of the AST nodes that `ast.walk` yields. -/
inductive NodeK where
  | stmtN (s : Stmt)
  | exprN (e : Expr)
  | handlerN (h : Handler)
  | opN (o : BoolOpKind)
deriving Repr

mutual
/-- All nodes of the subtree rooted at a statement, the statement itself
included.  Python's `ast.walk` yields them in breadth-first order; every
property proved below only depends on which nodes occur, never on the
order, so the traversal order is left unspecified by using a depth-first
flattening. -/
def walkStmt : Stmt → List NodeK
  | .functionDef name args decs ret body line =>
      .stmtN (.functionDef name args decs ret body line) ::
        (walkExprs decs ++ walkOptExpr ret ++ walkStmts body)
  | .asyncFunctionDef name args decs ret body line =>
      .stmtN (.asyncFunctionDef name args decs ret body line) ::
        (walkExprs decs ++ walkOptExpr ret ++ walkStmts body)
  | .classDef name bases decs body line =>
      .stmtN (.classDef name bases decs body line) ::
        (walkExprs bases ++ walkExprs decs ++ walkStmts body)
  | .ifS t body orelse =>
      .stmtN (.ifS t body orelse) ::
        (walkExpr t ++ walkStmts body ++ walkStmts orelse)
  | .whileS t body orelse =>
      .stmtN (.whileS t body orelse) ::
        (walkExpr t ++ walkStmts body ++ walkStmts orelse)
  | .forS tgt iter body orelse =>
      .stmtN (.forS tgt iter body orelse) ::
        (walkExpr tgt ++ walkExpr iter ++ walkStmts body ++ walkStmts orelse)
  | .asyncForS tgt iter body orelse =>
      .stmtN (.asyncForS tgt iter body orelse) ::
        (walkExpr tgt ++ walkExpr iter ++ walkStmts body ++ walkStmts orelse)
  | .tryS body handlers orelse finalbody =>
      .stmtN (.tryS body handlers orelse finalbody) ::
        (walkStmts body ++ walkHandlers handlers ++ walkStmts orelse ++
          walkStmts finalbody)
  | .assign targets value =>
      .stmtN (.assign targets value) :: (walkExprs targets ++ walkExpr value)
  | .importS names => [.stmtN (.importS names)]
  | .importFromS module names => [.stmtN (.importFromS module names)]
  | .exprStmt value => .stmtN (.exprStmt value) :: walkExpr value
  | .returnS value => .stmtN (.returnS value) :: walkOptExpr value
  | .passS => [.stmtN .passS]

def walkStmts : List Stmt → List NodeK
  | [] => []
  | s :: rest => walkStmt s ++ walkStmts rest

def walkExpr : Expr → List NodeK
  | .name id => [.exprN (.name id)]
  | .attributeE value attr =>
      .exprN (.attributeE value attr) :: walkExpr value
  | .call func args => .exprN (.call func args) :: (walkExpr func ++ walkExprs args)
  | .boolOp op values =>
      .exprN (.boolOp op values) :: (.opN op :: walkExprs values)
  | .constant => [.exprN .constant]
  | .subscript value slice =>
      .exprN (.subscript value slice) :: (walkExpr value ++ walkExpr slice)
  | .tupleE elts => .exprN (.tupleE elts) :: walkExprs elts

def walkExprs : List Expr → List NodeK
  | [] => []
  | e :: rest => walkExpr e ++ walkExprs rest

def walkOptExpr : Option Expr → List NodeK
  | none => []
  | some e => walkExpr e

def walkHandler : Handler → List NodeK
  | .handler type body =>
      .handlerN (.handler type body) :: (walkOptExpr type ++ walkStmts body)

def walkHandlers : List Handler → List NodeK
  | [] => []
  | h :: rest => walkHandler h ++ walkHandlers rest
end

/-!
Embedding of main.py (`CodeArchitectureAnalyzer`).
-/

/-- The record appended to `self.decorators[decorator]` in
`_analyze_function` (main.py lines 218-222). -/
structure DecoratorUsage where
  function : String
  file : String
  line : Nat
deriving Repr, DecidableEq

/-- `FunctionInfo` dataclass (main.py lines 29-39).  The `calls` field is
declared with default `None` and never populated by any code path, so it is
omitted from the embedding. -/
structure FunctionInfo where
  name : String
  decorators : List String
  line : Nat
  file_path : String
  args : List String
  returns : Option String
  complexity : Nat
deriving Repr, DecidableEq

/-- `ClassInfo` dataclass (main.py lines 42-50). -/
structure ClassInfo where
  name : String
  methods : List FunctionInfo
  decorators : List String
  base_classes : List String
  line : Nat
  file_path : String
deriving Repr, DecidableEq

/-- `ArchitecturalInsight` dataclass (main.py lines 53-60). -/
structure ArchitecturalInsight where
  type : String
  title : String
  description : String
  files_affected : List String
  severity : String
deriving Repr, DecidableEq

/-- The mutable aggregate model of `CodeArchitectureAnalyzer`
(main.py lines 66-73). -/
structure AnalyzerState where
  classes : List (String × ClassInfo)
  functions : List (String × FunctionInfo)
  decorators : List (String × List DecoratorUsage)
  imports : List (String × List String)
  insights : List ArchitecturalInsight
deriving Repr, DecidableEq

/-- The state of a fresh analyzer (main.py `__init__`). -/
def initState : AnalyzerState :=
  { classes := [], functions := [], decorators := [], imports := [],
    insights := [] }

/-- `_get_name` (main.py lines 258-267): best-effort dotted-name resolution
of an expression; unrecognised shapes give the empty string. -/
def get_name : Expr → String
  | .name id => id
  | .attributeE value attr =>
      let v := get_name value
      if v ≠ "" then v ++ "." ++ attr else attr
  | .call func _ => get_name func
  | _ => ""

/-- Python `str()` applied to an AST node object.  AST nodes do not
override `__str__`, so this is the default object repr
`<ast.Kind object at 0x...>`; the memory address varies between runs and
is elided here, which is sound for every property proved below because
only the shape prefix (in particular, nonemptiness) of the string is ever
relevant. -/
def strOfAstNode : Expr → String
  | .name _ => "<ast.Name object>"
  | .attributeE _ _ => "<ast.Attribute object>"
  | .call _ _ => "<ast.Call object>"
  | .boolOp _ _ => "<ast.BoolOp object>"
  | .constant => "<ast.Constant object>"
  | .subscript _ _ => "<ast.Subscript object>"
  | .tupleE _ => "<ast.Tuple object>"

/-- `_get_decorator_name` (main.py lines 248-256): `Name` resolves to its
identifier, `Call` to its callee resolved by `_get_name`, `Attribute` via
`_get_name`, and every other node shape falls through to
`return str(decorator)`. -/
def get_decorator_name (decorator : Expr) : String :=
  match decorator with
  | .name id => id
  | .call func _ => get_name func
  | .attributeE value attr => get_name (.attributeE value attr)
  | d => strOfAstNode d

/-- The decorator-expression shapes that fall through to the
`str(decorator)` branch of `_get_decorator_name`. -/
def isOtherDecoratorShape : Expr → Bool
  | .name _ => false
  | .call _ _ => false
  | .attributeE _ _ => false
  | _ => true

/-- `_calculate_complexity` (main.py lines 234-246): start from the base
complexity 1 and add one for every `If`/`While`/`For`/`AsyncFor` node,
every `ExceptHandler` clause and every `And`/`Or` operator node found by
`ast.walk` over the function subtree. -/
def calculate_complexity (node : Stmt) : Nat :=
  (walkStmt node).foldl
    (fun complexity child =>
      match child with
      | .stmtN (.ifS _ _ _) => complexity + 1
      | .stmtN (.whileS _ _ _) => complexity + 1
      | .stmtN (.forS _ _ _ _) => complexity + 1
      | .stmtN (.asyncForS _ _ _ _) => complexity + 1
      | .handlerN _ => complexity + 1
      | .opN _ => complexity + 1
      | _ => complexity)
    1

/-- A node of one of the kinds that `_calculate_complexity` counts:
conditional branches, exception-handler clauses and short-circuit boolean
operators. -/
def isBranchNode : NodeK → Bool
  | .stmtN (.ifS _ _ _) => true
  | .stmtN (.whileS _ _ _) => true
  | .stmtN (.forS _ _ _ _) => true
  | .stmtN (.asyncForS _ _ _ _) => true
  | .handlerN _ => true
  | .opN _ => true
  | _ => false

/-- The `FunctionInfo` built by `_analyze_function` (main.py lines
203-211) for a `FunctionDef` node. -/
def mkFunctionInfo (fp : String) (name : String) (args : List String)
    (decs : List Expr) (ret : Option Expr) (body : List Stmt) (line : Nat) :
    FunctionInfo :=
  { name := name
    decorators := decs.map get_decorator_name
    line := line
    file_path := fp
    args := args
    returns := ret.map get_name
    complexity := calculate_complexity (.functionDef name args decs ret body line) }

/-- `_analyze_function` (main.py lines 201-222): store the `FunctionInfo`
under the function name (overwriting any prior entry) and append one usage
record per truthy (nonempty) resolved decorator name. -/
def analyze_function (st : AnalyzerState) (fp : String) (name : String)
    (args : List String) (decs : List Expr) (ret : Option Expr)
    (body : List Stmt) (line : Nat) : AnalyzerState :=
  let func_info := mkFunctionInfo fp name args decs ret body line
  let st := { st with functions := dictInsert st.functions name func_info }
  func_info.decorators.foldl
    (fun st decorator =>
      if decorator ≠ "" then
        { st with decorators :=
            ddAppend st.decorators decorator ⟨name, fp, line⟩ }
      else st)
    st

/-- The `FunctionInfo` built for a method in `_analyze_class` (main.py
lines 179-188); unlike `_analyze_function` it leaves `returns` unset. -/
def methodInfoOfItem (fp : String) : Stmt → Option FunctionInfo
  | .functionDef name args decs ret body line =>
      some
        { name := name
          decorators := decs.map get_decorator_name
          line := line
          file_path := fp
          args := args
          returns := none
          complexity := calculate_complexity (.functionDef name args decs ret body line) }
  | _ => none

/-- The `ClassInfo` built by `_analyze_class` (main.py lines 190-197):
methods are exactly the plain `FunctionDef` items directly in the class
body. -/
def mkClassInfo (fp : String) (name : String) (bases : List Expr)
    (decs : List Expr) (body : List Stmt) (line : Nat) : ClassInfo :=
  { name := name
    methods := body.filterMap (methodInfoOfItem fp)
    decorators := decs.map get_decorator_name
    base_classes := bases.map get_name
    line := line
    file_path := fp }

/-- `_analyze_class` (main.py lines 174-199). -/
def analyze_class (st : AnalyzerState) (fp : String) (name : String)
    (bases : List Expr) (decs : List Expr) (body : List Stmt) (line : Nat) :
    AnalyzerState :=
  { st with classes :=
      dictInsert st.classes name (mkClassInfo fp name bases decs body line) }

/-- `_analyze_import` (main.py lines 224-232). -/
def analyze_import (st : AnalyzerState) (fp : String) : Stmt → AnalyzerState
  | .importS names =>
      names.foldl
        (fun st n => { st with imports := ddAppend st.imports n fp }) st
  | .importFromS module names =>
      let m := module.getD ""
      names.foldl
        (fun st n =>
          { st with imports := ddAppend st.imports (m ++ "." ++ n) fp }) st
  | _ => st

/-- The node dispatch of `_analyze_file` (main.py lines 164-170):
`ClassDef` goes to `_analyze_class`, plain `FunctionDef` to
`_analyze_function`, `Import`/`ImportFrom` to `_analyze_import`, and every
other node kind (notably `AsyncFunctionDef`) is skipped. -/
def dispatchNode (fp : String) (st : AnalyzerState) (n : NodeK) :
    AnalyzerState :=
  match n with
  | .stmtN (.classDef name bases decs body line) =>
      analyze_class st fp name bases decs body line
  | .stmtN (.functionDef name args decs ret body line) =>
      analyze_function st fp name args decs ret body line
  | .stmtN (.importS names) => analyze_import st fp (.importS names)
  | .stmtN (.importFromS module names) =>
      analyze_import st fp (.importFromS module names)
  | _ => st

/-- A source file handed to `_analyze_file`: its path, its line count, and
the outcome of `ast.parse` on its text.  Parsing itself is the Python
standard library, so it enters the embedding as a given outcome: `.ok`
carries the module body, `.error` the message of the
`SyntaxError`/`UnicodeDecodeError` raised at main.py line 148. -/
structure SourceFile where
  path : String
  lines : Nat
  parsed : Except String (List Stmt)

/-- The dictionary returned by `_analyze_file`: on success the `file_info`
dict of main.py lines 154-161, on a caught parse failure the dict
`{'error': str(e), 'lines': 0}` of line 152.  Both dictionaries are
nonempty, hence truthy. -/
inductive FileInfoDict where
  | info (path : String) (lines : Nat)
  | errDict (msg : String)
deriving Repr, DecidableEq

/-- Python truthiness of the returned dictionary, as tested by
`if file_info:` at main.py line 91.  A dict is truthy iff it is nonempty;
both shapes returned by `_analyze_file` carry at least one key, so both
are truthy. -/
def FileInfoDict.toBool : FileInfoDict → Bool
  | .info _ _ => true
  | .errDict _ => true

/-- `file_info.get('lines', 0)` (main.py line 93): the error dict stores
`'lines': 0`. -/
def FileInfoDict.linesOf : FileInfoDict → Nat
  | .info _ lines => lines
  | .errDict _ => 0

/-- `_analyze_file` (main.py lines 142-172).  A parse failure is caught
inside this function (lines 151-152) and turned into an error dict; it
does not propagate to the caller.  On success every node of the module
tree is dispatched. -/
def analyze_file (st : AnalyzerState) (f : SourceFile) :
    AnalyzerState × FileInfoDict :=
  match f.parsed with
  | .error e => (st, .errDict e)
  | .ok body =>
      ((walkStmts body).foldl (dispatchNode f.path) st, .info f.path f.lines)

/-- Case-sensitive substring test, modelling Python `needle in hay` on
strings. -/
def strContainsSub (hay needle : String) : Bool :=
  (List.range (hay.toList.length + 1)).any
    (fun i => needle.toList.isPrefixOf (hay.toList.drop i))

/-- `_generate_insights` (main.py lines 269-310) as a pure function from
the finished model to the list of insights it appends, in rule order:
high-complexity warning, reused-decorator info, duplicate-checksum
recommendation.  `list(set(...))` at line 282 is modelled by `dedup`; the
properties proved about it only concern membership and duplicate-freeness,
which are independent of the arbitrary set iteration order. -/
def generate_insights (st : AnalyzerState) : List ArchitecturalInsight :=
  let high_complexity_funcs :=
    (st.functions.map (fun p => p.2)).filter (fun f => 10 < f.complexity)
  let rule1 : List ArchitecturalInsight :=
    if high_complexity_funcs.isEmpty then []
    else
      [{ type := "warning"
         title := "High Complexity Functions Detected"
         description :=
           "Found " ++ toString high_complexity_funcs.length ++
             " functions with complexity > 10. Consider refactoring."
         files_affected :=
           (high_complexity_funcs.map (fun f => f.file_path)).dedup
         severity := "medium" }]
  let decorator_usage := st.decorators.filter (fun p => 1 < p.2.length)
  let rule2 : List ArchitecturalInsight :=
    if decorator_usage.isEmpty then []
    else
      [{ type := "info"
         title := "Decorator Patterns Found"
         description :=
           "Found " ++ toString decorator_usage.length ++
             " decorators used across multiple functions. This indicates good architectural patterns."
         files_affected := []
         severity := "low" }]
  let checksum_decorators :=
    (st.decorators.map (fun p => p.1)).filter
      (fun d => strContainsSub d "Checksum")
  let rule3 : List ArchitecturalInsight :=
    if 1 < checksum_decorators.length then
      [{ type := "recommendation"
         title := "Multiple Checksum Decorator Implementations"
         description :=
           "Found multiple checksum decorator implementations. Consider consolidating for consistency."
         files_affected := []
         severity := "medium" }]
    else []
  rule1 ++ rule2 ++ rule3

/-- Result of `analyze_codebase` (main.py lines 75-119): the final model
together with the summary counters and the error lines printed by the
`except` clause at lines 95-96.  That clause only fires when
`_analyze_file` itself raises; a `SyntaxError`/`UnicodeDecodeError` is
already caught inside `_analyze_file`, so within the embedded fragment
(no I/O failures) the log never receives an entry. -/
structure RunResult where
  state : AnalyzerState
  files_analyzed : Nat
  total_lines : Nat
  errorLog : List String
deriving Repr

/-- `analyze_codebase` (main.py lines 75-119) over an already enumerated
list of source files: analyze each file in order, counting it and adding
its line count whenever the returned dict is truthy, then run the insight
rules once over the aggregate model. -/
def analyze_codebase (files : List SourceFile) : RunResult :=
  let r :=
    files.foldl
      (fun (acc : RunResult) f =>
        let res := analyze_file acc.state f
        if res.2.toBool then
          { acc with
            state := res.1
            files_analyzed := acc.files_analyzed + 1
            total_lines := acc.total_lines + res.2.linesOf }
        else { acc with state := res.1 })
      { state := initState, files_analyzed := 0, total_lines := 0,
        errorLog := [] }
  { r with state :=
      { r.state with insights := r.state.insights ++ generate_insights r.state } }

/-!
Embedding of mainOOP.py (`ClassFinder`, `GraphBuilder`).
-/

/-- The per-class record built by `ClassFinder.find_classes`
(mainOOP.py lines 24-27): ordered method and attribute name lists. -/
structure ClassData where
  methods : List String
  attributes : List String
deriving Repr, DecidableEq

/-- One step of the inner loop of `find_classes` (mainOOP.py lines 28-35)
over the nodes of `ast.walk(class_node)`: a plain `FunctionDef` appends a
method name, an `Assign` whose first target is a bare `Name` appends an
attribute name, everything else is skipped.  An `Assign` with no targets
cannot occur in a parsed tree (the loop indexes `targets[0]`), so the
empty-target pattern is mapped to a skip. -/
def collectMember (cd : ClassData) (n : NodeK) : ClassData :=
  match n with
  | .stmtN (.functionDef name _ _ _ _ _) =>
      { cd with methods := cd.methods ++ [name] }
  | .stmtN (.assign (Expr.name id :: _) _) =>
      { cd with attributes := cd.attributes ++ [id] }
  | _ => cd

/-- The record `find_classes` stores for one `ClassDef` node: the inner
`ast.walk(node)` loop of mainOOP.py lines 28-35 over the whole class
subtree. -/
def collectClass (node : Stmt) : ClassData :=
  (walkStmt node).foldl collectMember { methods := [], attributes := [] }

/-- `ClassFinder.find_classes` (mainOOP.py lines 10-37) over the already
enumerated and parsed files: a file whose text fails to parse is skipped
(lines 16-20); every `ClassDef` node found by the outer `ast.walk(tree)`
stores a freshly collected record under the class name, overwriting any
same-named earlier class. -/
def find_classes (files : List (Except String (List Stmt))) :
    List (String × ClassData) :=
  files.foldl
    (fun classes f =>
      match f with
      | .error _ => classes
      | .ok body =>
          (walkStmts body).foldl
            (fun classes n =>
              match n with
              | .stmtN (.classDef name bases decs cbody line) =>
                  dictInsert classes name
                    (collectClass (.classDef name bases decs cbody line))
              | _ => classes)
            classes)
    []

/-- A `networkx.DiGraph` restricted to the operations `build_graph` uses:
node and edge sets with insertion deduplication. -/
structure DiGraph where
  nodes : List String
  edges : List (String × String)
deriving Repr, DecidableEq

/-- `graph.add_node(n)`: a no-op when the node exists. -/
def DiGraph.add_node (g : DiGraph) (n : String) : DiGraph :=
  if n ∈ g.nodes then g else { g with nodes := g.nodes ++ [n] }

/-- `graph.add_edge(u, v)`: inserts both endpoints as nodes and collapses
multi-edges to the presence of the edge (`add_node` never changes the edge
set, so the duplicate test reads the original edges). -/
def DiGraph.add_edge (g : DiGraph) (u v : String) : DiGraph :=
  { nodes := ((g.add_node u).add_node v).nodes
    edges := if (u, v) ∈ g.edges then g.edges else g.edges ++ [(u, v)] }

/-- `GraphBuilder.build_graph` (mainOOP.py lines 41-54): one node per
class name, then one directed edge from each class to each of its recorded
method and attribute names. -/
def build_graph (classes : List (String × ClassData)) : DiGraph :=
  classes.foldl
    (fun g p =>
      p.2.attributes.foldl (fun g a => g.add_edge p.1 a)
        (p.2.methods.foldl (fun g m => g.add_edge p.1 m) g))
    (classes.foldl (fun g p => g.add_node p.1) { nodes := [], edges := [] })

/-!
Specification-side characterisations, stated over the walked node lists
independently of the analyzer folds.
-/

/-- The nodes of a branch-counted kind in the subtree of a statement. -/
def branchNodes (node : Stmt) : List NodeK :=
  (walkStmt node).filter isBranchNode

/-- The module body of a source file; a file that failed to parse
contributes no nodes. -/
def bodyOf (f : SourceFile) : List Stmt :=
  match f.parsed with
  | .ok body => body
  | .error _ => []

/-- All AST nodes the analyzer dispatches for one source file. -/
def fileNodes (f : SourceFile) : List NodeK :=
  walkStmts (bodyOf f)

/-- The `(name, FunctionInfo)` insertions performed into `self.functions`
while dispatching a node list, in encounter order. -/
def funEvents (fp : String) (ns : List NodeK) : List (String × FunctionInfo) :=
  ns.filterMap
    (fun n =>
      match n with
      | .stmtN (.functionDef name args decs ret body line) =>
          some (name, mkFunctionInfo fp name args decs ret body line)
      | _ => none)

/-- The `(name, ClassInfo)` insertions performed into `self.classes` while
dispatching a node list, in encounter order. -/
def classEvents (fp : String) (ns : List NodeK) : List (String × ClassInfo) :=
  ns.filterMap
    (fun n =>
      match n with
      | .stmtN (.classDef name bases decs body line) =>
          some (name, mkClassInfo fp name bases decs body line)
      | _ => none)

/-- The `(decorator, usage)` appends performed into `self.decorators`
while dispatching a node list, in encounter order. -/
def decorEvents (fp : String) (ns : List NodeK) :
    List (String × DecoratorUsage) :=
  ns.flatMap
    (fun n =>
      match n with
      | .stmtN (.functionDef name _ decs _ _ line) =>
          ((decs.map get_decorator_name).filter (fun d => d ≠ "")).map
            (fun d => (d, ⟨name, fp, line⟩))
      | _ => [])

/-- Function insertions of a whole run, across files in scan order. -/
def allFunEvents (files : List SourceFile) : List (String × FunctionInfo) :=
  files.flatMap (fun f => funEvents f.path (fileNodes f))

/-- Class insertions of a whole run, across files in scan order. -/
def allClassEvents (files : List SourceFile) : List (String × ClassInfo) :=
  files.flatMap (fun f => classEvents f.path (fileNodes f))

/-- Decorator-usage appends of a whole run, across files in scan order. -/
def allDecorEvents (files : List SourceFile) :
    List (String × DecoratorUsage) :=
  files.flatMap (fun f => decorEvents f.path (fileNodes f))

/-- Whether a node is a plain (non-async) function definition with the
given name. -/
def isPlainDefNamed (n : String) : NodeK → Bool
  | .stmtN (.functionDef name _ _ _ _ _) => name == n
  | _ => false

/-- Whether any scanned file contains a plain `FunctionDef` node with the
given name anywhere in its tree. -/
def hasPlainDefNamed (files : List SourceFile) (n : String) : Bool :=
  files.any (fun f => (fileNodes f).any (isPlainDefNamed n))

/-- The simple-`Name` first target of an `Assign` node, the shape whose
target name `find_classes` records as an attribute. -/
def attrTarget : NodeK → Option String
  | .stmtN (.assign (Expr.name id :: _) _) => some id
  | _ => none

/-- The name of a plain `FunctionDef` node, the shape whose name
`find_classes` records as a method. -/
def methodTarget : NodeK → Option String
  | .stmtN (.functionDef name _ _ _ _ _) => some name
  | _ => none

/-!
Fold characterisation lemmas.
-/

theorem complexity_step_eq (c : Nat) (n : NodeK) :
    (match n with
      | NodeK.stmtN (.ifS _ _ _) => c + 1
      | NodeK.stmtN (.whileS _ _ _) => c + 1
      | NodeK.stmtN (.forS _ _ _ _) => c + 1
      | NodeK.stmtN (.asyncForS _ _ _ _) => c + 1
      | NodeK.handlerN _ => c + 1
      | NodeK.opN _ => c + 1
      | _ => c) = if isBranchNode n then c + 1 else c := by
  cases n with
  | stmtN s => cases s <;> rfl
  | exprN e => rfl
  | handlerN h => rfl
  | opN o => rfl

theorem complexity_foldl_aux (l : List NodeK) (init : Nat) :
    (l.foldl
      (fun complexity child =>
        match child with
        | NodeK.stmtN (.ifS _ _ _) => complexity + 1
        | NodeK.stmtN (.whileS _ _ _) => complexity + 1
        | NodeK.stmtN (.forS _ _ _ _) => complexity + 1
        | NodeK.stmtN (.asyncForS _ _ _ _) => complexity + 1
        | NodeK.handlerN _ => complexity + 1
        | NodeK.opN _ => complexity + 1
        | _ => complexity)
      init) = init + (l.filter isBranchNode).length := by
  induction l generalizing init with
  | nil => simp
  | cons n rest ih =>
    rw [List.foldl_cons]
    show (rest.foldl _
        (match n with
          | NodeK.stmtN (.ifS _ _ _) => init + 1
          | NodeK.stmtN (.whileS _ _ _) => init + 1
          | NodeK.stmtN (.forS _ _ _ _) => init + 1
          | NodeK.stmtN (.asyncForS _ _ _ _) => init + 1
          | NodeK.handlerN _ => init + 1
          | NodeK.opN _ => init + 1
          | _ => init)) = _
    rw [complexity_step_eq, ih, List.filter_cons]
    cases hb : isBranchNode n
    · simp [hb]
    · simp only [hb, if_true]
      simp
      omega

theorem decorFold_functions (ds : List String) (name fp : String) (line : Nat)
    (st : AnalyzerState) :
    (ds.foldl
      (fun st decorator =>
        if decorator ≠ "" then
          { st with decorators :=
              ddAppend st.decorators decorator ⟨name, fp, line⟩ }
        else st)
      st).functions = st.functions := by
  induction ds generalizing st with
  | nil => rfl
  | cons d rest ih =>
    rw [List.foldl_cons, ih]
    by_cases hd : d = ""
    · simp [hd]
    · simp [hd]

theorem decorFold_classes (ds : List String) (name fp : String) (line : Nat)
    (st : AnalyzerState) :
    (ds.foldl
      (fun st decorator =>
        if decorator ≠ "" then
          { st with decorators :=
              ddAppend st.decorators decorator ⟨name, fp, line⟩ }
        else st)
      st).classes = st.classes := by
  induction ds generalizing st with
  | nil => rfl
  | cons d rest ih =>
    rw [List.foldl_cons, ih]
    by_cases hd : d = ""
    · simp [hd]
    · simp [hd]

theorem decorFold_decorators (ds : List String) (name fp : String)
    (line : Nat) (st : AnalyzerState) :
    (ds.foldl
      (fun st decorator =>
        if decorator ≠ "" then
          { st with decorators :=
              ddAppend st.decorators decorator ⟨name, fp, line⟩ }
        else st)
      st).decorators =
      (ds.filter (fun d => d ≠ "")).foldl
        (fun m d => ddAppend m d ⟨name, fp, line⟩) st.decorators := by
  induction ds generalizing st with
  | nil => rfl
  | cons d rest ih =>
    rw [List.foldl_cons, List.filter_cons]
    by_cases hd : d = ""
    · simp only [hd]
      rw [ih]
      simp
    · have hd2 : (d ≠ "") := hd
      rw [ih]
      simp [hd2]

theorem analyze_function_functions (st : AnalyzerState) (fp name : String)
    (args : List String) (decs : List Expr) (ret : Option Expr)
    (body : List Stmt) (line : Nat) :
    (analyze_function st fp name args decs ret body line).functions =
      dictInsert st.functions name (mkFunctionInfo fp name args decs ret body line) := by
  unfold analyze_function
  rw [decorFold_functions]

theorem analyze_function_classes (st : AnalyzerState) (fp name : String)
    (args : List String) (decs : List Expr) (ret : Option Expr)
    (body : List Stmt) (line : Nat) :
    (analyze_function st fp name args decs ret body line).classes =
      st.classes := by
  unfold analyze_function
  rw [decorFold_classes]

theorem analyze_function_decorators (st : AnalyzerState) (fp name : String)
    (args : List String) (decs : List Expr) (ret : Option Expr)
    (body : List Stmt) (line : Nat) :
    (analyze_function st fp name args decs ret body line).decorators =
      (((mkFunctionInfo fp name args decs ret body line).decorators).filter
          (fun d => d ≠ "")).foldl
        (fun m d => ddAppend m d ⟨name, fp, line⟩) st.decorators := by
  unfold analyze_function
  rw [decorFold_decorators]

theorem importFold_preserves {β : Type}
    (g : AnalyzerState → β → List (String × List String)) (l : List β)
    (st : AnalyzerState) :
    (l.foldl (fun st n => { st with imports := g st n }) st).functions =
        st.functions ∧
      (l.foldl (fun st n => { st with imports := g st n }) st).classes =
        st.classes ∧
      (l.foldl (fun st n => { st with imports := g st n }) st).decorators =
        st.decorators := by
  induction l generalizing st with
  | nil => exact ⟨rfl, rfl, rfl⟩
  | cons b rest ih =>
    rw [List.foldl_cons]
    exact ih _

theorem analyze_import_preserves (st : AnalyzerState) (fp : String)
    (s : Stmt) :
    (analyze_import st fp s).functions = st.functions ∧
      (analyze_import st fp s).classes = st.classes ∧
      (analyze_import st fp s).decorators = st.decorators := by
  cases s with
  | importS names =>
    unfold analyze_import
    exact importFold_preserves _ names st
  | importFromS module names =>
    unfold analyze_import
    exact importFold_preserves _ names st
  | _ => exact ⟨rfl, rfl, rfl⟩

theorem foldDispatch_functions (ns : List NodeK) (fp : String)
    (st : AnalyzerState) :
    (ns.foldl (dispatchNode fp) st).functions =
      (funEvents fp ns).foldl (fun m p => dictInsert m p.1 p.2)
        st.functions := by
  induction ns generalizing st with
  | nil => rfl
  | cons n rest ih =>
    rw [List.foldl_cons, ih]
    cases n with
    | stmtN s =>
      cases s with
      | functionDef name args decs ret body line =>
        simp only [funEvents, List.filterMap_cons, dispatchNode,
          List.foldl_cons]
        rw [analyze_function_functions]
      | classDef name bases decs body line =>
        simp only [funEvents, List.filterMap_cons, dispatchNode]
        rfl
      | importS names =>
        simp only [funEvents, List.filterMap_cons, dispatchNode]
        rw [(analyze_import_preserves st fp (.importS names)).1]
      | importFromS module names =>
        simp only [funEvents, List.filterMap_cons, dispatchNode]
        rw [(analyze_import_preserves st fp (.importFromS module names)).1]
      | _ => rfl
    | exprN e => rfl
    | handlerN h => rfl
    | opN o => rfl

theorem foldDispatch_classes (ns : List NodeK) (fp : String)
    (st : AnalyzerState) :
    (ns.foldl (dispatchNode fp) st).classes =
      (classEvents fp ns).foldl (fun m p => dictInsert m p.1 p.2)
        st.classes := by
  induction ns generalizing st with
  | nil => rfl
  | cons n rest ih =>
    rw [List.foldl_cons, ih]
    cases n with
    | stmtN s =>
      cases s with
      | functionDef name args decs ret body line =>
        simp only [classEvents, List.filterMap_cons, dispatchNode]
        rw [analyze_function_classes]
      | classDef name bases decs body line =>
        simp only [classEvents, List.filterMap_cons, dispatchNode,
          List.foldl_cons]
        rfl
      | importS names =>
        simp only [classEvents, List.filterMap_cons, dispatchNode]
        rw [(analyze_import_preserves st fp (.importS names)).2.1]
      | importFromS module names =>
        simp only [classEvents, List.filterMap_cons, dispatchNode]
        rw [(analyze_import_preserves st fp (.importFromS module names)).2.1]
      | _ => rfl
    | exprN e => rfl
    | handlerN h => rfl
    | opN o => rfl

theorem foldl_pairs_ddAppend {α : Type} (l : List String) (occ : α)
    (m : List (String × List α)) :
    ((l.map (fun d => (d, occ))).foldl
        (fun m p => ddAppend m p.1 p.2) m) =
      l.foldl (fun m d => ddAppend m d occ) m := by
  induction l generalizing m with
  | nil => rfl
  | cons d rest ih =>
    rw [List.map_cons, List.foldl_cons, List.foldl_cons, ih]

theorem foldDispatch_decorators (ns : List NodeK) (fp : String)
    (st : AnalyzerState) :
    (ns.foldl (dispatchNode fp) st).decorators =
      (decorEvents fp ns).foldl (fun m p => ddAppend m p.1 p.2)
        st.decorators := by
  induction ns generalizing st with
  | nil => rfl
  | cons n rest ih =>
    rw [List.foldl_cons, ih]
    cases n with
    | stmtN s =>
      cases s with
      | functionDef name args decs ret body line =>
        simp only [decorEvents, List.flatMap_cons, dispatchNode]
        rw [analyze_function_decorators, List.foldl_append,
          foldl_pairs_ddAppend]
        rfl
      | classDef name bases decs body line =>
        simp only [decorEvents, List.flatMap_cons, dispatchNode]
        rfl
      | importS names =>
        simp only [decorEvents, List.flatMap_cons, dispatchNode]
        rw [(analyze_import_preserves st fp (.importS names)).2.2]
        rfl
      | importFromS module names =>
        simp only [decorEvents, List.flatMap_cons, dispatchNode]
        rw [(analyze_import_preserves st fp (.importFromS module names)).2.2]
        rfl
      | _ => rfl
    | exprN e => rfl
    | handlerN h => rfl
    | opN o => rfl

theorem analyze_file_state (st : AnalyzerState) (f : SourceFile) :
    (analyze_file st f).1 = (fileNodes f).foldl (dispatchNode f.path) st := by
  cases hp : f.parsed with
  | error e => simp [analyze_file, fileNodes, bodyOf, hp, walkStmts]
  | ok body => simp [analyze_file, fileNodes, bodyOf, hp]

theorem runFold_state (files : List SourceFile) (acc : RunResult) :
    (files.foldl
        (fun (acc : RunResult) f =>
          let res := analyze_file acc.state f
          if res.2.toBool then
            { acc with
              state := res.1
              files_analyzed := acc.files_analyzed + 1
              total_lines := acc.total_lines + res.2.linesOf }
          else { acc with state := res.1 })
        acc).state.functions =
      (allFunEvents files).foldl (fun m p => dictInsert m p.1 p.2)
        acc.state.functions ∧
    (files.foldl
        (fun (acc : RunResult) f =>
          let res := analyze_file acc.state f
          if res.2.toBool then
            { acc with
              state := res.1
              files_analyzed := acc.files_analyzed + 1
              total_lines := acc.total_lines + res.2.linesOf }
          else { acc with state := res.1 })
        acc).state.classes =
      (allClassEvents files).foldl (fun m p => dictInsert m p.1 p.2)
        acc.state.classes ∧
    (files.foldl
        (fun (acc : RunResult) f =>
          let res := analyze_file acc.state f
          if res.2.toBool then
            { acc with
              state := res.1
              files_analyzed := acc.files_analyzed + 1
              total_lines := acc.total_lines + res.2.linesOf }
          else { acc with state := res.1 })
        acc).state.decorators =
      (allDecorEvents files).foldl (fun m p => ddAppend m p.1 p.2)
        acc.state.decorators := by
  induction files generalizing acc with
  | nil => exact ⟨rfl, rfl, rfl⟩
  | cons f rest ih =>
    rw [List.foldl_cons]
    have hstep :
        ((let res := analyze_file acc.state f
          if res.2.toBool then
            { acc with
              state := res.1
              files_analyzed := acc.files_analyzed + 1
              total_lines := acc.total_lines + res.2.linesOf }
          else { acc with state := res.1 }) : RunResult).state =
          (fileNodes f).foldl (dispatchNode f.path) acc.state := by
      cases hb : (analyze_file acc.state f).2.toBool
      · simp only [hb]
        rw [← analyze_file_state]
        rfl
      · simp only [hb]
        rw [← analyze_file_state]
        rfl
    obtain ⟨ihf, ihc, ihd⟩ := ih _
    refine ⟨?_, ?_, ?_⟩
    · rw [ihf, hstep, foldDispatch_functions]
      simp only [allFunEvents, List.flatMap_cons, List.foldl_append]
    · rw [ihc, hstep, foldDispatch_classes]
      simp only [allClassEvents, List.flatMap_cons, List.foldl_append]
    · rw [ihd, hstep, foldDispatch_decorators]
      simp only [allDecorEvents, List.flatMap_cons, List.foldl_append]

theorem analyze_codebase_functions (files : List SourceFile) :
    (analyze_codebase files).state.functions =
      (allFunEvents files).foldl (fun m p => dictInsert m p.1 p.2) [] :=
  (runFold_state files _).1

theorem analyze_codebase_classes (files : List SourceFile) :
    (analyze_codebase files).state.classes =
      (allClassEvents files).foldl (fun m p => dictInsert m p.1 p.2) [] :=
  (runFold_state files _).2.1

theorem analyze_codebase_decorators (files : List SourceFile) :
    (analyze_codebase files).state.decorators =
      (allDecorEvents files).foldl (fun m p => ddAppend m p.1 p.2) [] :=
  (runFold_state files _).2.2

theorem ddLookup_nil {α : Type} (d : String) :
    ddLookup ([] : List (String × List α)) d = [] := rfl

theorem ddLookup_foldl_mem {α : Type} (events : List (String × α))
    (m : List (String × List α)) (d : String) (o : α)
    (h : o ∈ ddLookup (events.foldl (fun m p => ddAppend m p.1 p.2) m) d) :
    o ∈ ddLookup m d ∨ (d, o) ∈ events := by
  induction events generalizing m with
  | nil => exact Or.inl h
  | cons p rest ih =>
    rw [List.foldl_cons] at h
    rcases ih _ h with hin | hev
    · rw [ddLookup_append] at hin
      by_cases hd : d = p.1
      · rw [if_pos hd] at hin
        rcases List.mem_append.mp hin with hold | hnew
        · exact Or.inl (hd ▸ hold)
        · right
          have : o = p.2 := by simpa using hnew
          rw [hd, this]
          exact List.mem_cons_self _ _
      · rw [if_neg hd] at hin
        exact Or.inl hin
    · exact Or.inr (List.mem_cons_of_mem _ hev)

theorem decorEvents_mem (fp : String) (ns : List NodeK) (d : String)
    (o : DecoratorUsage) (h : (d, o) ∈ decorEvents fp ns) :
    ∃ name args decs ret body line,
      NodeK.stmtN (.functionDef name args decs ret body line) ∈ ns ∧
        o = ⟨name, fp, line⟩ ∧ d ∈ decs.map get_decorator_name ∧ d ≠ "" := by
  unfold decorEvents at h
  rw [List.mem_flatMap] at h
  obtain ⟨n, hn, hmem⟩ := h
  cases n with
  | stmtN s =>
    cases s with
    | functionDef name args decs ret body line =>
      simp only [List.mem_map] at hmem
      obtain ⟨d2, hd2, heq⟩ := hmem
      obtain ⟨heqd, heqo⟩ := Prod.mk.injEq .. ▸ heq
      rw [List.mem_filter] at hd2
      refine ⟨name, args, decs, ret, body, line, hn, heqo.symm, ?_, ?_⟩
      · rw [heqd] at hd2
        exact hd2.1
      · rw [← heqd]
        simpa using hd2.2
    | _ => simp at hmem
  | exprN e => simp at hmem
  | handlerN hh => simp at hmem
  | opN op => simp at hmem

theorem funEvents_mem (fp : String) (ns : List NodeK)
    (p : String × FunctionInfo) (h : p ∈ funEvents fp ns) :
    ∃ args decs ret body line,
      NodeK.stmtN (.functionDef p.1 args decs ret body line) ∈ ns ∧
        p.2 = mkFunctionInfo fp p.1 args decs ret body line := by
  unfold funEvents at h
  rw [List.mem_filterMap] at h
  obtain ⟨n, hn, hmem⟩ := h
  cases n with
  | stmtN s =>
    cases s with
    | functionDef name args decs ret body line =>
      simp only [Option.some.injEq] at hmem
      refine ⟨args, decs, ret, body, line, ?_, ?_⟩
      · rw [← hmem]
        exact hn
      · rw [← hmem]
    | _ => simp at hmem
  | exprN e => simp at hmem
  | handlerN hh => simp at hmem
  | opN op => simp at hmem

/-!
Claim theorems.
-/

/-- Claim C1: for every function definition, `_calculate_complexity` returns one
more than the number of conditional-branch nodes
(`If`/`While`/`For`/`AsyncFor`), exception-handler clauses and
short-circuit boolean-operator nodes in the function's subtree; in
particular it returns 1 exactly when the subtree contains none of them. -/
theorem complexity_counts_branch_nodes (name : String) (args : List String)
    (decs : List Expr) (ret : Option Expr) (body : List Stmt) (line : Nat) :
    calculate_complexity (Stmt.functionDef name args decs ret body line) =
      1 + (branchNodes (Stmt.functionDef name args decs ret body line)).length := by
  unfold calculate_complexity branchNodes
  exact complexity_foldl_aux _ 1

/-- Claim C2: the high-complexity rule of `_generate_insights` emits a warning
insight exactly when some extracted function has complexity above 10; the
emitted insight has severity medium and its affected-file list is
duplicate-free and holds exactly the source files of the qualifying
functions. -/
theorem high_complexity_warning_rule (st : AnalyzerState) :
    (((st.functions.map (fun p => p.2)).filter
        (fun f => 10 < f.complexity)).isEmpty = true →
      (generate_insights st).filter (fun i => i.type == "warning") = []) ∧
    (((st.functions.map (fun p => p.2)).filter
        (fun f => 10 < f.complexity)).isEmpty = false →
      ∃ ins,
        (generate_insights st).filter (fun i => i.type == "warning") =
            [ins] ∧
          ins.severity = "medium" ∧ ins.files_affected.Nodup ∧
          ∀ p, p ∈ ins.files_affected ↔
            ∃ f, f ∈ st.functions.map (fun q => q.2) ∧
              10 < f.complexity ∧ f.file_path = p) := by
  constructor
  · intro hempty
    simp only [generate_insights, List.filter_append]
    rw [if_pos hempty]
    split_ifs <;> simp [List.filter]
  · intro hne
    simp only [generate_insights, List.filter_append]
    rw [if_neg (by simp [hne])]
    refine
      ⟨{ type := "warning"
         title := "High Complexity Functions Detected"
         description :=
           "Found " ++
             toString
               ((st.functions.map (fun p => p.2)).filter
                   (fun f => 10 < f.complexity)).length ++
             " functions with complexity > 10. Consider refactoring."
         files_affected :=
           (((st.functions.map (fun p => p.2)).filter
                 (fun f => 10 < f.complexity)).map
               (fun f => f.file_path)).dedup
         severity := "medium" }, ?_, rfl, ?_, ?_⟩
    · split_ifs <;> simp [List.filter]
    · exact List.nodup_dedup _
    · intro p
      rw [List.mem_dedup, List.mem_map]
      constructor
      · rintro ⟨f, hf, hfp⟩
        rw [List.mem_filter] at hf
        exact ⟨f, hf.1, by simpa using hf.2, hfp⟩
      · rintro ⟨f, hf, hc, hfp⟩
        exact ⟨f, List.mem_filter.mpr ⟨hf, by simpa using hc⟩, hfp⟩

/-- A model state holding one function of complexity 11, used to
instantiate the high-complexity rule. -/
def c2WitnessState : AnalyzerState :=
  { initState with
    functions :=
      [("f",
        { name := "f", decorators := [], line := 1, file_path := "a.py",
          args := [], returns := none, complexity := 11 })] }

/-- Witness for C2: with one function of complexity 11 on file a.py the
warning fires with the stated shape. -/
theorem high_complexity_warning_rule_witness :
    ((c2WitnessState.functions.map (fun p => p.2)).filter
        (fun f => 10 < f.complexity)).isEmpty = false ∧
      ∃ ins,
        (generate_insights c2WitnessState).filter
            (fun i => i.type == "warning") = [ins] ∧
          ins.severity = "medium" ∧ ins.files_affected.Nodup ∧
          ∀ p, p ∈ ins.files_affected ↔
            ∃ f, f ∈ c2WitnessState.functions.map (fun q => q.2) ∧
              10 < f.complexity ∧ f.file_path = p :=
  ⟨by rfl, (high_complexity_warning_rule c2WitnessState).2 (by rfl)⟩

/-- The C3 scenario: nine parseable single-line files and one file whose
text raises a SyntaxError in `ast.parse`. -/
def c3Files : List SourceFile :=
  [{ path := "f1.py", lines := 1, parsed := Except.ok [Stmt.passS] },
   { path := "f2.py", lines := 1, parsed := Except.ok [Stmt.passS] },
   { path := "f3.py", lines := 1, parsed := Except.ok [Stmt.passS] },
   { path := "f4.py", lines := 1, parsed := Except.ok [Stmt.passS] },
   { path := "f5.py", lines := 1, parsed := Except.ok [Stmt.passS] },
   { path := "f6.py", lines := 1, parsed := Except.ok [Stmt.passS] },
   { path := "f7.py", lines := 1, parsed := Except.ok [Stmt.passS] },
   { path := "f8.py", lines := 1, parsed := Except.ok [Stmt.passS] },
   { path := "f9.py", lines := 1, parsed := Except.ok [Stmt.passS] },
   { path := "f10.py", lines := 0,
     parsed := Except.error "invalid syntax (<unknown>, line 1)" }]

/-- Claim C3: on a scan of nine parseable files and one unparseable file the run
completes with `files_analyzed = 10`, not 9 — the error dictionary
`{'error': ..., 'lines': 0}` returned by `_analyze_file` is truthy, so the
`if file_info:` guard counts the failed file as analyzed — and the
`except` clause of `analyze_codebase` logs nothing, because the
`SyntaxError` is already caught inside `_analyze_file` and never reaches
it; only `total_lines` reflects the failure through the stored
`'lines': 0`. -/
theorem unparseable_file_still_counted :
    (analyze_codebase c3Files).files_analyzed = 10 ∧
      (analyze_codebase c3Files).total_lines = 9 ∧
      (analyze_codebase c3Files).errorLog = [] :=
  ⟨rfl, rfl, rfl⟩

theorem dictGet?_ddAppend {α : Type} (m : List (String × List α))
    (k n : String) (v : α) :
    dictGet? (ddAppend m k v) n =
      if n = k then some (ddLookup m k ++ [v]) else dictGet? m n := by
  unfold ddAppend ddLookup dictGet?
  by_cases hany : m.any (fun p => p.1 == k) = true
  · rw [if_pos hany, List.find?_map]
    have hcomp :
        ((fun p : String × List α => p.1 == n) ∘
          (fun p => if p.1 == k then (p.1, p.2 ++ [v]) else p)) =
        (fun p : String × List α => p.1 == n) := by
      funext p
      by_cases hk : p.1 = k
      · simp [hk]
      · simp [hk]
    rw [hcomp]
    cases hf : m.find? (fun p => p.1 == n) with
    | none =>
      by_cases hnk : n = k
      · exfalso
        subst hnk
        rw [List.find?_eq_none] at hf
        simp only [List.any_eq_true] at hany
        obtain ⟨p, hp, hpk⟩ := hany
        exact absurd hpk (by simpa using hf p hp)
      · simp [hnk]
    | some q =>
      have hq1 : q.1 = n := by simpa using List.find?_some hf
      by_cases hnk : n = k
      · subst hnk
        simp [hf, hq1]
      · have hqk : ¬ q.1 = k := by rw [hq1]; exact hnk
        simp [hqk, hnk]
  · rw [if_neg hany, List.find?_append]
    by_cases hnk : n = k
    · subst hnk
      have hfind : m.find? (fun p => p.1 == n) = none := by
        rw [List.find?_eq_none]
        intro p hp
        simp only [List.any_eq_true] at hany
        push_neg at hany
        exact hany p hp
      simp [hfind]
    · have h2 : (k == n) = false := by
        simp [BEq.beq]
        exact fun h => hnk h.symm
      cases hf : m.find? (fun p => p.1 == n) with
      | none => simp [h2, hnk]
      | some q => simp [hnk]

theorem ddFold_preserves_other (ds : List String) (occ : DecoratorUsage)
    (m : List (String × List DecoratorUsage)) (n : String)
    (h : ∀ d ∈ ds, d ≠ n) :
    dictGet? (ds.foldl (fun m d => ddAppend m d occ) m) n =
      dictGet? m n := by
  induction ds generalizing m with
  | nil => rfl
  | cons d rest ih =>
    rw [List.foldl_cons]
    rw [ih _ (fun x hx => h x (List.mem_cons_of_mem _ hx))]
    rw [dictGet?_ddAppend]
    have hd : d ≠ n := h d (List.mem_cons_self _ _)
    rw [if_neg (fun he => hd he.symm)]

/-- Counterexample for C4: a decorator expression that is neither a bare
name nor a call nor an attribute access — here a `Constant` node — does
not resolve to the empty string: `_get_decorator_name` falls through to
`str(decorator)`, whose value is the nonempty object repr, and that
nonempty name is entered into the decorator-usage index rather than being
excluded from it. -/
theorem decorator_fallback_counterexample :
    get_decorator_name Expr.constant = "<ast.Constant object>" ∧
      get_decorator_name Expr.constant ≠ "" ∧
      dictGet?
          (analyze_function initState "a.py" "f" [] [Expr.constant] none
              [] 1).decorators
          "<ast.Constant object>" =
        some [{ function := "f", file := "a.py", line := 1 }] :=
  ⟨rfl, by decide, rfl⟩

/-- Claim C4 as amended: a bare name resolves to itself, a call to its callee's
resolved name, an attribute access to the dotted name obtained by
recursively resolving its base, and every other decorator-expression
shape to the string representation of the node object, which is never
empty; an empty-string result (as arises for a call whose callee has an
unresolvable shape) is excluded from the DecoratorUsageIndex — the empty
key is never touched — while still occupying an entry in the ordered
decorators sequence of the recorded declaration. -/
theorem decorator_name_resolution_amended :
    (∀ id, get_decorator_name (Expr.name id) = id) ∧
      (∀ func args, get_decorator_name (Expr.call func args) = get_name func) ∧
      (∀ value attr,
        get_decorator_name (Expr.attributeE value attr) =
          if get_name value ≠ "" then get_name value ++ "." ++ attr
          else attr) ∧
      (∀ e, isOtherDecoratorShape e = true →
        get_decorator_name e = strOfAstNode e ∧ strOfAstNode e ≠ "") ∧
      (∀ st fp name args decs ret body line,
        dictGet?
            (analyze_function st fp name args decs ret body line).functions
            name =
          some (mkFunctionInfo fp name args decs ret body line) ∧
        (mkFunctionInfo fp name args decs ret body line).decorators =
          decs.map get_decorator_name ∧
        dictGet?
            (analyze_function st fp name args decs ret body line).decorators
            "" =
          dictGet? st.decorators "") := by
  refine ⟨fun id => rfl, fun func args => rfl, fun value attr => rfl,
    ?_, ?_⟩
  · intro e he
    cases e with
    | name id => simp [isOtherDecoratorShape] at he
    | call func args => simp [isOtherDecoratorShape] at he
    | attributeE value attr => simp [isOtherDecoratorShape] at he
    | boolOp op values => exact ⟨rfl, by simp [strOfAstNode]⟩
    | constant => exact ⟨rfl, by decide⟩
    | subscript value slice => exact ⟨rfl, by simp [strOfAstNode]⟩
    | tupleE elts => exact ⟨rfl, by simp [strOfAstNode]⟩
  · intro st fp name args decs ret body line
    refine ⟨?_, rfl, ?_⟩
    · rw [analyze_function_functions, dictGet?_insert, if_pos rfl]
    · rw [analyze_function_decorators]
      apply ddFold_preserves_other
      intro d hd
      rw [List.mem_filter] at hd
      simpa using hd.2

/-- Witness for C4: the fallback branch instantiated at a `Constant`
decorator node and the index-preservation part instantiated at a function
with one unresolvable-callee decorator. -/
theorem decorator_name_resolution_amended_witness :
    (isOtherDecoratorShape Expr.constant = true ∧
      get_decorator_name Expr.constant = strOfAstNode Expr.constant ∧
        strOfAstNode Expr.constant ≠ "") ∧
      dictGet?
          (analyze_function initState "b.py" "g" []
              [Expr.call Expr.constant []] none [] 2).decorators "" =
        dictGet? initState.decorators "" :=
  ⟨⟨rfl,
    decorator_name_resolution_amended.2.2.2.1 Expr.constant rfl⟩,
    (decorator_name_resolution_amended.2.2.2.2 initState "b.py" "g" []
        [Expr.call Expr.constant []] none [] 2).2.2⟩

/-- Claim C5: the assignments `self.classes[node.name] = class_info` and
`self.functions[node.name] = func_info` overwrite any existing entry, so
after a whole run every name maps to the declaration most recently
encountered with that name, across files; the final conjunct states the
single-step overwrite itself. -/
theorem aggregate_last_write_wins (files : List SourceFile) (n : String) :
    dictGet? (analyze_codebase files).state.functions n =
        lastWith (allFunEvents files) n ∧
      dictGet? (analyze_codebase files).state.classes n =
        lastWith (allClassEvents files) n ∧
      (∀ (m : List (String × FunctionInfo)) (v : FunctionInfo),
        dictGet? (dictInsert m n v) n = some v) ∧
      (∀ (m : List (String × ClassInfo)) (v : ClassInfo),
        dictGet? (dictInsert m n v) n = some v) := by
  refine ⟨?_, ?_, ?_, ?_⟩
  · rw [analyze_codebase_functions, dictGet?_foldl_insert]
    cases lastWith (allFunEvents files) n <;> rfl
  · rw [analyze_codebase_classes, dictGet?_foldl_insert]
    cases lastWith (allClassEvents files) n <;> rfl
  · intro m v
    rw [dictGet?_insert, if_pos rfl]
  · intro m v
    rw [dictGet?_insert, if_pos rfl]

theorem collectMember_parts (cd : ClassData) (n : NodeK) :
    (collectMember cd n).attributes =
        cd.attributes ++ (attrTarget n).toList ∧
      (collectMember cd n).methods =
        cd.methods ++ (methodTarget n).toList := by
  cases n with
  | stmtN s =>
    cases s
    case assign targets value =>
      cases targets with
      | nil => simp [collectMember, attrTarget, methodTarget]
      | cons t ts => cases t <;> simp [collectMember, attrTarget, methodTarget]
    all_goals simp [collectMember, attrTarget, methodTarget]
  | exprN e => simp [collectMember, attrTarget, methodTarget]
  | handlerN h => simp [collectMember, attrTarget, methodTarget]
  | opN o => simp [collectMember, attrTarget, methodTarget]

theorem collectMember_foldl (l : List NodeK) (cd : ClassData) :
    (l.foldl collectMember cd).attributes =
        cd.attributes ++ l.filterMap attrTarget ∧
      (l.foldl collectMember cd).methods =
        cd.methods ++ l.filterMap methodTarget := by
  induction l generalizing cd with
  | nil => simp
  | cons n rest ih =>
    rw [List.foldl_cons]
    obtain ⟨iha, ihm⟩ := ih (collectMember cd n)
    obtain ⟨hpa, hpm⟩ := collectMember_parts cd n
    constructor
    · rw [iha, hpa, List.filterMap_cons]
      cases attrTarget n <;> simp
    · rw [ihm, hpm, List.filterMap_cons]
      cases methodTarget n <;> simp

/-- The class records produced while scanning the files, in encounter
order, one per `ClassDef` node found by the outer walk. -/
def oopClassEvents (files : List (Except String (List Stmt))) :
    List (String × ClassData) :=
  files.flatMap
    (fun f =>
      match f with
      | .error _ => []
      | .ok body =>
          (walkStmts body).filterMap
            (fun n =>
              match n with
              | .stmtN (.classDef name bases decs cbody line) =>
                  some (name, collectClass (.classDef name bases decs cbody line))
              | _ => none))

theorem find_classes_inner_fold (ns : List NodeK)
    (m : List (String × ClassData)) :
    (ns.foldl
        (fun classes n =>
          match n with
          | .stmtN (.classDef name bases decs cbody line) =>
              dictInsert classes name
                (collectClass (.classDef name bases decs cbody line))
          | _ => classes)
        m) =
      ((ns.filterMap
          (fun n =>
            match n with
            | .stmtN (.classDef name bases decs cbody line) =>
                some (name, collectClass (.classDef name bases decs cbody line))
            | _ => none)).foldl
        (fun m p => dictInsert m p.1 p.2) m) := by
  induction ns generalizing m with
  | nil => rfl
  | cons n rest ih =>
    rw [List.foldl_cons, List.filterMap_cons]
    cases n with
    | stmtN s =>
      cases s with
      | classDef name bases decs cbody line =>
        simp only [List.foldl_cons]
        exact ih _
      | _ => exact ih _
    | exprN e => exact ih _
    | handlerN h => exact ih _
    | opN o => exact ih _

theorem find_classes_eq_fold (files : List (Except String (List Stmt))) :
    find_classes files =
      (oopClassEvents files).foldl (fun m p => dictInsert m p.1 p.2) [] := by
  suffices h : ∀ m, (files.foldl
      (fun classes f =>
        match f with
        | .error _ => classes
        | .ok body =>
            (walkStmts body).foldl
              (fun classes n =>
                match n with
                | .stmtN (.classDef name bases decs cbody line) =>
                    dictInsert classes name
                      (collectClass (.classDef name bases decs cbody line))
                | _ => classes)
              classes)
      m) =
      (oopClassEvents files).foldl (fun m p => dictInsert m p.1 p.2) m by
    exact h []
  induction files with
  | nil => intro m; rfl
  | cons f rest ih =>
    intro m
    rw [List.foldl_cons]
    cases f with
    | error e =>
      simp only [oopClassEvents, List.flatMap_cons]
      rw [ih m]
      rfl
    | ok body =>
      simp only [oopClassEvents, List.flatMap_cons, List.foldl_append]
      rw [find_classes_inner_fold, ih]
      rfl

theorem oopClassEvents_mem (files : List (Except String (List Stmt)))
    (cname : String) (data : ClassData)
    (h : (cname, data) ∈ oopClassEvents files) :
    ∃ body, Except.ok body ∈ files ∧
      ∃ bases decs cbody line,
        NodeK.stmtN (.classDef cname bases decs cbody line) ∈
            walkStmts body ∧
          data = collectClass (.classDef cname bases decs cbody line) := by
  unfold oopClassEvents at h
  rw [List.mem_flatMap] at h
  obtain ⟨f, hf, hmem⟩ := h
  cases f with
  | error e => simp at hmem
  | ok body =>
    rw [List.mem_filterMap] at hmem
    obtain ⟨n, hn, hsome⟩ := hmem
    cases n with
    | stmtN s =>
      cases s with
      | classDef name bases decs cbody line =>
        simp only [Option.some.injEq, Prod.mk.injEq] at hsome
        obtain ⟨hname, hdata⟩ := hsome
        subst hname
        exact ⟨body, hf, bases, decs, cbody, line, hn, hdata.symm⟩
      | _ => simp at hsome
    | exprN e => simp at hsome
    | handlerN hh => simp at hsome
    | opN o => simp at hsome

/-- The class node of the counterexample for C6: a class whose only body
item is a method, with a simple assignment inside the method body. -/
def c6ClassNode : Stmt :=
  .classDef "C" [] []
    [.functionDef "m" [] [] none [.assign [Expr.name "x"] .constant] 2] 1

/-- Counterexample for C6: the class body of `c6ClassNode` contains no
assignment directly — its only direct item is the method `m` — yet
`find_classes` records the assignment target `x` from inside the method
body as a class attribute, because the inner loop runs over
`ast.walk(node)`, the whole class subtree. -/
theorem class_attributes_counterexample :
    (([Stmt.functionDef "m" [] [] none
          [Stmt.assign [Expr.name "x"] Expr.constant] 2].map
        NodeK.stmtN).filterMap attrTarget) = [] ∧
      dictGet? (find_classes [Except.ok [c6ClassNode]]) "C" =
        some { methods := ["m"], attributes := ["x"] } :=
  ⟨rfl, rfl⟩

/-- Claim C6 as amended: the attributes recorded for a class are exactly the
bare-`Name` first targets of the assignment statements anywhere in the
class subtree — directly in the class body, inside method bodies, or in
nested classes — in walk order; assignments whose first target is
compound (tuple or attribute target) contribute nothing; methods likewise
collect every plain function-definition node of the subtree; and every
record looked up in the result of `find_classes` is such a collection for
a `ClassDef` node of one of the scanned files. -/
theorem class_attributes_from_subtree :
    (∀ name bases decs body line,
      (collectClass (Stmt.classDef name bases decs body line)).attributes =
          (walkStmt (Stmt.classDef name bases decs body line)).filterMap
            attrTarget ∧
        (collectClass (Stmt.classDef name bases decs body line)).methods =
          (walkStmt (Stmt.classDef name bases decs body line)).filterMap
            methodTarget) ∧
      ∀ files cname data,
        dictGet? (find_classes files) cname = some data →
          ∃ body, Except.ok body ∈ files ∧
            ∃ bases decs cbody line,
              NodeK.stmtN (.classDef cname bases decs cbody line) ∈
                  walkStmts body ∧
                data = collectClass (.classDef cname bases decs cbody line) := by
  constructor
  · intro name bases decs body line
    obtain ⟨ha, hm⟩ :=
      collectMember_foldl
        (walkStmt (Stmt.classDef name bases decs body line))
        { methods := [], attributes := [] }
    exact ⟨ha, hm⟩
  · intro files cname data hget
    rw [find_classes_eq_fold, dictGet?_foldl_insert] at hget
    cases hl : lastWith (oopClassEvents files) cname with
    | none => rw [hl] at hget; simp [dictGet?] at hget
    | some v =>
      rw [hl] at hget
      simp only [Option.some.injEq] at hget
      subst hget
      exact oopClassEvents_mem files cname v (lastWith_mem _ _ _ hl)

/-- Witness for C6: the amended provenance part applied to the
counterexample file, recovering the class node and its subtree-collected
record. -/
theorem class_attributes_from_subtree_witness :
    dictGet? (find_classes [Except.ok [c6ClassNode]]) "C" =
        some { methods := ["m"], attributes := ["x"] } ∧
      ∃ body,
        Except.ok body ∈
            ([Except.ok [c6ClassNode]] : List (Except String (List Stmt))) ∧
          ∃ bases decs cbody line,
            NodeK.stmtN (.classDef "C" bases decs cbody line) ∈
                walkStmts body ∧
              ({ methods := ["m"], attributes := ["x"] } : ClassData) =
                collectClass (.classDef "C" bases decs cbody line) :=
  ⟨rfl,
    class_attributes_from_subtree.2
      ([Except.ok [c6ClassNode]] : List (Except String (List Stmt))) "C"
      { methods := ["m"], attributes := ["x"] } rfl⟩

theorem add_node_edges (g : DiGraph) (n : String) :
    (g.add_node n).edges = g.edges := by
  unfold DiGraph.add_node
  split <;> rfl

theorem add_node_nodes (g : DiGraph) (m n : String) :
    n ∈ (g.add_node m).nodes ↔ n ∈ g.nodes ∨ n = m := by
  unfold DiGraph.add_node
  by_cases hm : m ∈ g.nodes
  · rw [if_pos hm]
    constructor
    · exact Or.inl
    · rintro (h | rfl)
      · exact h
      · exact hm
  · rw [if_neg hm]
    simp

theorem add_edge_edges (g : DiGraph) (u v : String) (e : String × String) :
    e ∈ (g.add_edge u v).edges ↔ e ∈ g.edges ∨ e = (u, v) := by
  unfold DiGraph.add_edge
  by_cases hm : (u, v) ∈ g.edges
  · rw [if_pos hm]
    constructor
    · exact Or.inl
    · rintro (h | rfl)
      · exact h
      · exact hm
  · rw [if_neg hm]
    simp

theorem add_edge_nodes (g : DiGraph) (u v : String) (n : String) :
    n ∈ (g.add_edge u v).nodes ↔ n ∈ g.nodes ∨ n = u ∨ n = v := by
  have hn : (g.add_edge u v).nodes = ((g.add_node u).add_node v).nodes := rfl
  rw [hn, add_node_nodes, add_node_nodes]
  tauto

theorem memberFold_edges (ms : List String) (c : String) (g : DiGraph)
    (e : String × String) :
    e ∈ (ms.foldl (fun g m => g.add_edge c m) g).edges ↔
      e ∈ g.edges ∨ ∃ m ∈ ms, e = (c, m) := by
  induction ms generalizing g with
  | nil => simp
  | cons m rest ih =>
    rw [List.foldl_cons, ih, add_edge_edges]
    simp only [List.mem_cons]
    constructor
    · rintro ((h | rfl) | ⟨m2, hm2, rfl⟩)
      · exact Or.inl h
      · exact Or.inr ⟨m, Or.inl rfl, rfl⟩
      · exact Or.inr ⟨m2, Or.inr hm2, rfl⟩
    · rintro (h | ⟨m2, (rfl | hm2), rfl⟩)
      · exact Or.inl (Or.inl h)
      · exact Or.inl (Or.inr rfl)
      · exact Or.inr ⟨m2, hm2, rfl⟩

theorem memberFold_nodes (ms : List String) (c : String) (g : DiGraph)
    (n : String) :
    n ∈ (ms.foldl (fun g m => g.add_edge c m) g).nodes ↔
      n ∈ g.nodes ∨ (ms ≠ [] ∧ n = c) ∨ n ∈ ms := by
  induction ms generalizing g with
  | nil => simp
  | cons m rest ih =>
    rw [List.foldl_cons, ih, add_edge_nodes]
    simp only [List.mem_cons]
    constructor
    · rintro ((h | rfl | rfl) | ⟨hne, rfl⟩ | h)
      · exact Or.inl h
      · exact Or.inr (Or.inl ⟨List.cons_ne_nil _ _, rfl⟩)
      · exact Or.inr (Or.inr (Or.inl rfl))
      · exact Or.inr (Or.inl ⟨List.cons_ne_nil _ _, rfl⟩)
      · exact Or.inr (Or.inr (Or.inr h))
    · rintro (h | ⟨hne, rfl⟩ | (rfl | h))
      · exact Or.inl (Or.inl h)
      · exact Or.inl (Or.inr (Or.inl rfl))
      · exact Or.inl (Or.inr (Or.inr rfl))
      · exact Or.inr (Or.inr h)

theorem baseFold_edges (classes : List (String × ClassData)) (g : DiGraph) :
    (classes.foldl (fun g p => g.add_node p.1) g).edges = g.edges := by
  induction classes generalizing g with
  | nil => rfl
  | cons p rest ih =>
    rw [List.foldl_cons, ih, add_node_edges]

theorem baseFold_nodes (classes : List (String × ClassData)) (g : DiGraph)
    (n : String) :
    n ∈ (classes.foldl (fun g p => g.add_node p.1) g).nodes ↔
      n ∈ g.nodes ∨ ∃ p ∈ classes, n = p.1 := by
  induction classes generalizing g with
  | nil => simp
  | cons p rest ih =>
    rw [List.foldl_cons, ih, add_node_nodes]
    simp only [List.mem_cons]
    constructor
    · rintro ((h | rfl) | ⟨q, hq, rfl⟩)
      · exact Or.inl h
      · exact Or.inr ⟨p, Or.inl rfl, rfl⟩
      · exact Or.inr ⟨q, Or.inr hq, rfl⟩
    · rintro (h | ⟨q, (rfl | hq), rfl⟩)
      · exact Or.inl (Or.inl h)
      · exact Or.inl (Or.inr rfl)
      · exact Or.inr ⟨q, hq, rfl⟩

theorem classStep_edges (g : DiGraph) (p : String × ClassData)
    (e : String × String) :
    e ∈ (p.2.attributes.foldl (fun g a => g.add_edge p.1 a)
          (p.2.methods.foldl (fun g m => g.add_edge p.1 m) g)).edges ↔
      e ∈ g.edges ∨
        e.1 = p.1 ∧ (e.2 ∈ p.2.methods ∨ e.2 ∈ p.2.attributes) := by
  rw [memberFold_edges, memberFold_edges]
  constructor
  · rintro ((h | ⟨m, hm, rfl⟩) | ⟨a, ha, rfl⟩)
    · exact Or.inl h
    · exact Or.inr ⟨rfl, Or.inl hm⟩
    · exact Or.inr ⟨rfl, Or.inr ha⟩
  · rintro (h | ⟨h1, (hm | ha)⟩)
    · exact Or.inl (Or.inl h)
    · refine Or.inl (Or.inr ⟨e.2, hm, ?_⟩)
      rw [← h1]
    · refine Or.inr ⟨e.2, ha, ?_⟩
      rw [← h1]

theorem classStep_nodes (g : DiGraph) (p : String × ClassData) (n : String) :
    n ∈ (p.2.attributes.foldl (fun g a => g.add_edge p.1 a)
          (p.2.methods.foldl (fun g m => g.add_edge p.1 m) g)).nodes ↔
      n ∈ g.nodes ∨
        ((p.2.methods ≠ [] ∨ p.2.attributes ≠ []) ∧ n = p.1) ∨
        n ∈ p.2.methods ∨ n ∈ p.2.attributes := by
  rw [memberFold_nodes, memberFold_nodes]
  tauto

theorem buildFold_edges (classes : List (String × ClassData)) (g : DiGraph)
    (e : String × String) :
    e ∈ (classes.foldl
          (fun g p =>
            p.2.attributes.foldl (fun g a => g.add_edge p.1 a)
              (p.2.methods.foldl (fun g m => g.add_edge p.1 m) g))
          g).edges ↔
      e ∈ g.edges ∨
        ∃ p ∈ classes,
          e.1 = p.1 ∧ (e.2 ∈ p.2.methods ∨ e.2 ∈ p.2.attributes) := by
  induction classes generalizing g with
  | nil => simp
  | cons p rest ih =>
    rw [List.foldl_cons, ih, classStep_edges]
    simp only [List.mem_cons]
    constructor
    · rintro ((h | hp) | ⟨q, hq, hqe⟩)
      · exact Or.inl h
      · exact Or.inr ⟨p, Or.inl rfl, hp⟩
      · exact Or.inr ⟨q, Or.inr hq, hqe⟩
    · rintro (h | ⟨q, (rfl | hq), hqe⟩)
      · exact Or.inl (Or.inl h)
      · exact Or.inl (Or.inr hqe)
      · exact Or.inr ⟨q, hq, hqe⟩

theorem buildFold_nodes (classes : List (String × ClassData)) (g : DiGraph)
    (n : String) :
    n ∈ (classes.foldl
          (fun g p =>
            p.2.attributes.foldl (fun g a => g.add_edge p.1 a)
              (p.2.methods.foldl (fun g m => g.add_edge p.1 m) g))
          g).nodes ↔
      n ∈ g.nodes ∨
        ∃ p ∈ classes,
          (((p.2.methods ≠ [] ∨ p.2.attributes ≠ []) ∧ n = p.1) ∨
            n ∈ p.2.methods ∨ n ∈ p.2.attributes) := by
  induction classes generalizing g with
  | nil => simp
  | cons p rest ih =>
    rw [List.foldl_cons, ih, classStep_nodes]
    simp only [List.mem_cons]
    constructor
    · rintro ((h | hp) | ⟨q, hq, hqn⟩)
      · exact Or.inl h
      · exact Or.inr ⟨p, Or.inl rfl, hp⟩
      · exact Or.inr ⟨q, Or.inr hq, hqn⟩
    · rintro (h | ⟨q, (rfl | hq), hqn⟩)
      · exact Or.inl (Or.inl h)
      · exact Or.inl (Or.inr hqn)
      · exact Or.inr ⟨q, hq, hqn⟩

/-- Claim C7: the node set of the graph built by `build_graph` is exactly the
class names together with all their recorded method and attribute names,
and every edge runs from a class name to a name recorded as a method or
attribute of that same class — no dangling edges beyond recorded
members. -/
theorem build_graph_nodes_edges (classes : List (String × ClassData)) :
    (∀ n, n ∈ (build_graph classes).nodes ↔
      ∃ p ∈ classes, n = p.1 ∨ n ∈ p.2.methods ∨ n ∈ p.2.attributes) ∧
      ∀ u v, (u, v) ∈ (build_graph classes).edges →
        ∃ p ∈ classes, p.1 = u ∧ (v ∈ p.2.methods ∨ v ∈ p.2.attributes) := by
  constructor
  · intro n
    unfold build_graph
    rw [buildFold_nodes, baseFold_nodes]
    simp only [List.not_mem_nil]
    constructor
    · rintro ((hfalse | ⟨p, hp, rfl⟩) | ⟨p, hp, hD⟩)
      · exact absurd hfalse (fun h => h)
      · exact ⟨p, hp, Or.inl rfl⟩
      · rcases hD with ⟨_, rfl⟩ | hm | ha
        · exact ⟨p, hp, Or.inl rfl⟩
        · exact ⟨p, hp, Or.inr (Or.inl hm)⟩
        · exact ⟨p, hp, Or.inr (Or.inr ha)⟩
    · rintro ⟨p, hp, (rfl | hm | ha)⟩
      · exact Or.inl (Or.inr ⟨p, hp, rfl⟩)
      · exact Or.inr ⟨p, hp, Or.inr (Or.inl hm)⟩
      · exact Or.inr ⟨p, hp, Or.inr (Or.inr ha)⟩
  · intro u v hmem
    unfold build_graph at hmem
    rw [buildFold_edges, baseFold_edges] at hmem
    rcases hmem with hfalse | ⟨p, hp, h1, h2⟩
    · exact absurd hfalse (List.not_mem_nil _)
    · exact ⟨p, hp, h1.symm, h2⟩

/-- A one-class model used to instantiate the graph properties. -/
def c7Classes : List (String × ClassData) :=
  [("C", { methods := ["m"], attributes := ["x"] })]

/-- Witness for C7: the node characterisation instantiated at the method
name and the edge property applied to the concrete class-to-attribute
edge. -/
theorem build_graph_nodes_edges_witness :
    ("m" ∈ (build_graph c7Classes).nodes ↔
      ∃ p ∈ c7Classes,
        "m" = p.1 ∨ "m" ∈ p.2.methods ∨ "m" ∈ p.2.attributes) ∧
      ("C", "x") ∈ (build_graph c7Classes).edges ∧
      ∃ p ∈ c7Classes, p.1 = "C" ∧ ("x" ∈ p.2.methods ∨ "x" ∈ p.2.attributes) :=
  ⟨(build_graph_nodes_edges c7Classes).1 "m", by decide,
    (build_graph_nodes_edges c7Classes).2 "C" "x" (by decide)⟩

theorem ddAppend_keys_nodup {α : Type} (m : List (String × List α))
    (k : String) (v : α) (h : (m.map (fun p => p.1)).Nodup) :
    ((ddAppend m k v).map (fun p => p.1)).Nodup := by
  unfold ddAppend
  by_cases hany : m.any (fun p => p.1 == k) = true
  · rw [if_pos hany, List.map_map]
    have hcomp :
        ((fun p : String × List α => p.1) ∘
          (fun p => if p.1 == k then (p.1, p.2 ++ [v]) else p)) =
        (fun p : String × List α => p.1) := by
      funext p
      by_cases hk : p.1 = k
      · simp [hk]
      · simp [hk]
    rw [hcomp]
    exact h
  · rw [if_neg hany, List.map_append]
    rw [List.nodup_append]
    refine ⟨h, List.nodup_singleton _, ?_⟩
    intro a ha hb
    simp only [List.map_cons, List.map_nil, List.mem_singleton] at hb
    subst hb
    rw [List.mem_map] at ha
    obtain ⟨p, hp, hpk⟩ := ha
    simp only [List.any_eq_true] at hany
    exact hany ⟨p, hp, by simp [hpk]⟩

theorem ddFold_keys_nodup {α : Type} (events : List (String × α))
    (m : List (String × List α)) (h : (m.map (fun p => p.1)).Nodup) :
    (((events.foldl (fun m p => ddAppend m p.1 p.2) m)).map
        (fun p => p.1)).Nodup := by
  induction events generalizing m with
  | nil => exact h
  | cons p rest ih =>
    rw [List.foldl_cons]
    exact ih _ (ddAppend_keys_nodup m p.1 p.2 h)

/-- Claim C8: the decorator-usage index of a completed run has pairwise distinct
keys, and over any model with distinct index keys the checksum rule of
`_generate_insights` emits exactly one recommendation insight — severity
medium, no affected files — precisely when more than one of those
distinct decorator names contains the case-sensitive substring
"Checksum", regardless of how many occurrences each such decorator has;
with at most one such name it emits none. -/
theorem duplicate_checksum_rule :
    (∀ files,
      (((analyze_codebase files).state.decorators).map
          (fun p => p.1)).Nodup) ∧
      ∀ st : AnalyzerState,
        (st.decorators.map (fun p => p.1)).Nodup →
          ((st.decorators.map (fun p => p.1)).filter
              (fun d => strContainsSub d "Checksum")).Nodup ∧
          (1 < ((st.decorators.map (fun p => p.1)).filter
              (fun d => strContainsSub d "Checksum")).length →
            ∃ ins,
              (generate_insights st).filter
                  (fun i => i.type == "recommendation") = [ins] ∧
                ins.severity = "medium" ∧ ins.files_affected = []) ∧
          (¬ 1 < ((st.decorators.map (fun p => p.1)).filter
              (fun d => strContainsSub d "Checksum")).length →
            (generate_insights st).filter
                (fun i => i.type == "recommendation") = []) := by
  constructor
  · intro files
    rw [analyze_codebase_decorators]
    exact ddFold_keys_nodup _ [] (by simp)
  · intro st hnd
    refine ⟨hnd.filter _, ?_, ?_⟩
    · intro hlen
      simp only [generate_insights, List.filter_append]
      rw [if_pos hlen]
      refine
        ⟨{ type := "recommendation"
           title := "Multiple Checksum Decorator Implementations"
           description :=
             "Found multiple checksum decorator implementations. Consider consolidating for consistency."
           files_affected := []
           severity := "medium" }, ?_, rfl, rfl⟩
      split_ifs <;> simp [List.filter]
    · intro hlen
      simp only [generate_insights, List.filter_append]
      rw [if_neg hlen]
      split_ifs <;> simp [List.filter]

/-- A model whose index holds the decorators ChecksumA and ChecksumB with
one occurrence each. -/
def c8State : AnalyzerState :=
  { initState with
    decorators :=
      [("ChecksumA", [{ function := "f", file := "a.py", line := 1 }]),
       ("ChecksumB", [{ function := "g", file := "b.py", line := 2 }])] }

/-- Witness for C8: two checksum-named decorators used once each fire the
rule exactly once. -/
theorem duplicate_checksum_rule_witness :
    (c8State.decorators.map (fun p => p.1)).Nodup ∧
      1 < ((c8State.decorators.map (fun p => p.1)).filter
          (fun d => strContainsSub d "Checksum")).length ∧
      ∃ ins,
        (generate_insights c8State).filter
            (fun i => i.type == "recommendation") = [ins] ∧
          ins.severity = "medium" ∧ ins.files_affected = [] :=
  ⟨by decide, by decide,
    (duplicate_checksum_rule.2 c8State (by decide)).2.1 (by decide)⟩

theorem hasPlainDefNamed_forall (files : List SourceFile) (n : String)
    (h : hasPlainDefNamed files n = false) :
    ∀ f ∈ files, ∀ node ∈ fileNodes f, isPlainDefNamed n node = false := by
  unfold hasPlainDefNamed at h
  rw [List.any_eq_false] at h
  intro f hf node hnode
  have h2 := h f hf
  simp only [Bool.not_eq_true] at h2
  rw [List.any_eq_false] at h2
  simpa using h2 node hnode

/-- Claim C9: an `AsyncFunctionDef` is a different node class from
`FunctionDef`, so the extractor records nothing for an asynchronous
function: the dispatch of `_analyze_file` leaves the state unchanged on
such a node, `_analyze_class` never turns one into a method, and after a
whole run a name that occurs only as an async definition is absent from
the functions map and from every decorator-usage record. -/
theorem async_defs_not_recorded (files : List SourceFile) (n : String)
    (h : hasPlainDefNamed files n = false) :
    dictGet? (analyze_codebase files).state.functions n = none ∧
      (∀ d o,
        o ∈ ddLookup (analyze_codebase files).state.decorators d →
          o.function ≠ n) ∧
      (∀ st fp name args decs ret body line,
        dispatchNode fp st
            (.stmtN (.asyncFunctionDef name args decs ret body line)) = st) ∧
      (∀ fp name args decs ret body line,
        methodInfoOfItem fp
            (.asyncFunctionDef name args decs ret body line) = none) ∧
      ∀ fp cname bases cdecs cbody cline fi,
        fi ∈ (mkClassInfo fp cname bases cdecs cbody cline).methods →
          ∃ args decs ret body line,
            Stmt.functionDef fi.name args decs ret body line ∈ cbody := by
  have hforall := hasPlainDefNamed_forall files n h
  refine ⟨?_, ?_, fun st fp name args decs ret body line => rfl,
    fun fp name args decs ret body line => rfl, ?_⟩
  · rw [analyze_codebase_functions, dictGet?_foldl_insert]
    have hnone : lastWith (allFunEvents files) n = none := by
      apply lastWith_eq_none
      intro p hp
      unfold allFunEvents at hp
      rw [List.mem_flatMap] at hp
      obtain ⟨f, hf, hpe⟩ := hp
      obtain ⟨args, decs, ret, body, line, hnode, _⟩ :=
        funEvents_mem f.path (fileNodes f) p hpe
      have := hforall f hf _ hnode
      simpa [isPlainDefNamed] using this
    rw [hnone]
    rfl
  · intro d o ho
    rw [analyze_codebase_decorators] at ho
    rcases ddLookup_foldl_mem _ [] d o ho with hbase | hev
    · simp [ddLookup, dictGet?] at hbase
    · unfold allDecorEvents at hev
      rw [List.mem_flatMap] at hev
      obtain ⟨f, hf, hde⟩ := hev
      obtain ⟨name, args, decs, ret, body, line, hnode, ho2, _, _⟩ :=
        decorEvents_mem f.path (fileNodes f) d o hde
      have := hforall f hf _ hnode
      simp only [isPlainDefNamed] at this
      intro hcon
      rw [ho2] at hcon
      simp only at hcon
      rw [hcon] at this
      simp at this
  · intro fp cname bases cdecs cbody cline fi hfi
    unfold mkClassInfo at hfi
    simp only at hfi
    rw [List.mem_filterMap] at hfi
    obtain ⟨item, hitem, hsome⟩ := hfi
    cases item with
    | functionDef name args decs ret body line =>
      simp only [methodInfoOfItem, Option.some.injEq] at hsome
      have hname : fi.name = name := by rw [← hsome]
      rw [hname]
      exact ⟨args, decs, ret, body, line, hitem⟩
    | _ => simp [methodInfoOfItem] at hsome

/-- The C9 scenario: one file whose only statement is a decorated
asynchronous function definition. -/
def c9Files : List SourceFile :=
  [{ path := "a.py", lines := 3,
     parsed :=
       Except.ok
         [Stmt.asyncFunctionDef "ag" [] [Expr.name "dec"] none
             [Stmt.passS] 1] }]

/-- Witness for C9: the file defines only the async function ag, so no
plain definition named ag exists and ag is absent from the functions
map. -/
theorem async_defs_not_recorded_witness :
    hasPlainDefNamed c9Files "ag" = false ∧
      dictGet? (analyze_codebase c9Files).state.functions "ag" = none :=
  ⟨by rfl, (async_defs_not_recorded c9Files "ag" (by rfl)).1⟩

/-- Claim C10: class decorators are resolved and stored in the recorded
ClassInfo but `_analyze_class` never touches the decorator-usage index,
and after a whole run every occurrence held by the index originates from
a plain `FunctionDef` node: it carries that function's name and line, the
file being scanned, and a nonempty decorator name resolved from that
node's decorator list. -/
theorem decorator_index_only_function_defs :
    (∀ st fp name bases decs body line,
      (analyze_class st fp name bases decs body line).decorators =
          st.decorators ∧
        dictGet? (analyze_class st fp name bases decs body line).classes
            name =
          some (mkClassInfo fp name bases decs body line) ∧
        (mkClassInfo fp name bases decs body line).decorators =
          decs.map get_decorator_name) ∧
      ∀ files d o,
        o ∈ ddLookup (analyze_codebase files).state.decorators d →
          ∃ f ∈ files,
            ∃ name args decs ret body line,
              NodeK.stmtN (.functionDef name args decs ret body line) ∈
                  fileNodes f ∧
                o = { function := name, file := f.path, line := line } ∧
                d ∈ decs.map get_decorator_name ∧ d ≠ "" := by
  constructor
  · intro st fp name bases decs body line
    refine ⟨rfl, ?_, rfl⟩
    unfold analyze_class
    rw [dictGet?_insert, if_pos rfl]
  · intro files d o ho
    rw [analyze_codebase_decorators] at ho
    rcases ddLookup_foldl_mem _ [] d o ho with hbase | hev
    · simp [ddLookup, dictGet?] at hbase
    · unfold allDecorEvents at hev
      rw [List.mem_flatMap] at hev
      obtain ⟨f, hf, hde⟩ := hev
      obtain ⟨name, args, decs, ret, body, line, hnode, ho2, hd, hne⟩ :=
        decorEvents_mem f.path (fileNodes f) d o hde
      exact ⟨f, hf, name, args, decs, ret, body, line, hnode, ho2, hd, hne⟩

/-- The C10 scenario: one file with a decorated plain function and a
decorated class. -/
def c10Files : List SourceFile :=
  [{ path := "a.py", lines := 5,
     parsed :=
       Except.ok
         [Stmt.functionDef "f" [] [Expr.name "dec"] none [Stmt.passS] 1,
          Stmt.classDef "C" [] [Expr.name "cdec"] [Stmt.passS] 3] }]

/-- Witness for C10: the single index entry under dec is traced back to
the plain function-definition node of f, while the class decorator cdec
is stored on the ClassInfo and the index is untouched by class
analysis. -/
theorem decorator_index_only_function_defs_witness :
    (({ function := "f", file := "a.py", line := 1 } : DecoratorUsage) ∈
        ddLookup (analyze_codebase c10Files).state.decorators "dec") ∧
      (∃ f ∈ c10Files,
        ∃ name args decs ret body line,
          NodeK.stmtN (.functionDef name args decs ret body line) ∈
              fileNodes f ∧
            ({ function := "f", file := "a.py", line := 1 } :
                DecoratorUsage) =
              { function := name, file := f.path, line := line } ∧
            "dec" ∈ decs.map get_decorator_name ∧ "dec" ≠ "") ∧
      (analyze_class initState "a.py" "C" [] [Expr.name "cdec"]
          [Stmt.passS] 3).decorators = initState.decorators :=
  ⟨by decide,
    decorator_index_only_function_defs.2 c10Files "dec"
      { function := "f", file := "a.py", line := 1 } (by decide),
    (decorator_index_only_function_defs.1 initState "a.py" "C" []
        [Expr.name "cdec"] [Stmt.passS] 3).1⟩
